import Mathlib

/-!
Formal model of the gocrema core (clonkspot/gocrema): the session cache actor
(`cache.go`), the pub/sub notifier (`notifier.go`), the address filtering and
key construction used by both, and the line parser of the server-sent-events
client (`eventsource/eventsource.go`).

Go maps are modelled as association lists (`mapLookup`/`mapInsert`/`mapDelete`
give Go's first-match lookup, in-place replacement and deletion).  Go's map
iteration order is unspecified; the model fixes insertion order, which the
statements below never depend on beyond "some order".  The mutable Go maps that
can be aliased (the per-game address maps) live in an explicit store (`CHeap`)
indexed by allocation number, so that sharing and non-sharing of mutable
structure between the live cache and `Get` snapshots is expressible.
-/

/-- Go map read `m[k]` (first matching key of the association list). -/
def mapLookup {κ β : Type} [DecidableEq κ] : List (κ × β) → κ → Option β
  | [], _ => none
  | p :: rest, k => if p.1 = k then some p.2 else mapLookup rest k

/-- Go map write `m[k] = v`: replace the binding in place, else append. -/
def mapInsert {κ β : Type} [DecidableEq κ] : List (κ × β) → κ → β → List (κ × β)
  | [], k, v => [(k, v)]
  | p :: rest, k, v => if p.1 = k then (k, v) :: rest else p :: mapInsert rest k v

/-- Go `delete(m, k)`. -/
def mapDelete {κ β : Type} [DecidableEq κ] : List (κ × β) → κ → List (κ × β)
  | [], _ => []
  | p :: rest, k => if p.1 = k then mapDelete rest k else p :: mapDelete rest k

theorem mapLookup_insert_self {κ β : Type} [DecidableEq κ] (m : List (κ × β)) (k : κ) (v : β) :
    mapLookup (mapInsert m k v) k = some v := by
  induction m with
  | nil => simp [mapInsert, mapLookup]
  | cons p rest ih =>
    by_cases h : p.1 = k
    · simp [mapInsert, mapLookup, h]
    · simp [mapInsert, mapLookup, h, ih]

theorem mapLookup_insert_ne {κ β : Type} [DecidableEq κ] (m : List (κ × β)) (k k' : κ) (v : β)
    (h : k' ≠ k) : mapLookup (mapInsert m k v) k' = mapLookup m k' := by
  have h' : ¬k = k' := Ne.symm h
  induction m with
  | nil => simp [mapInsert, mapLookup, h']
  | cons p rest ih =>
    by_cases hp : p.1 = k
    · simp [mapInsert, mapLookup, hp, h']
    · by_cases hp' : p.1 = k'
      · simp [mapInsert, mapLookup, hp, hp', h]
      · simp [mapInsert, mapLookup, hp, hp', ih]

theorem mapDelete_lookup_none {κ β : Type} [DecidableEq κ] (m : List (κ × β)) (k : κ)
    (h : mapLookup m k = none) : mapDelete m k = m := by
  induction m with
  | nil => simp [mapDelete]
  | cons p rest ih =>
    by_cases hp : p.1 = k
    · simp [mapLookup, hp] at h
    · simp [mapLookup, hp] at h
      simp [mapDelete, hp, ih h]

theorem mapLookup_none_of_not_mem_keys {κ β : Type} [DecidableEq κ]
    (m : List (κ × β)) (k : κ) (h : k ∉ m.map Prod.fst) : mapLookup m k = none := by
  induction m with
  | nil => rfl
  | cons p rest ih =>
    simp only [List.map_cons, List.mem_cons] at h
    push_neg at h
    have h1 : ¬p.1 = k := Ne.symm h.1
    simp [mapLookup, h1, ih h.2]

theorem mapLookup_none_countP {κ β : Type} [DecidableEq κ] (m : List (κ × β)) (k : κ)
    (h : mapLookup m k = none) : m.countP (fun p => decide (p.1 = k)) = 0 := by
  induction m with
  | nil => simp
  | cons p rest ih =>
    by_cases hp : p.1 = k
    · simp [mapLookup, hp] at h
    · simp [mapLookup, hp] at h
      simp [List.countP_cons, hp, ih h]

theorem mapInsert_countP {κ β : Type} [DecidableEq κ] (m : List (κ × β)) (k : κ) (v : β)
    (h : mapLookup m k = none) :
    (mapInsert m k v).countP (fun p => decide (p.1 = k)) = 1 := by
  induction m with
  | nil => simp [mapInsert]
  | cons p rest ih =>
    by_cases hp : p.1 = k
    · simp [mapLookup, hp] at h
    · simp [mapLookup, hp] at h
      simp [mapInsert, hp, List.countP_cons, ih h]

/-!  ## Go `net.IP` (notifier.go address filtering)

A `net.IP` is a byte slice, 4 bytes for IPv4 or 16 bytes for IPv6 (an IPv4
address may also appear in its 16-byte IPv4-in-IPv6 form).  The predicates
below are the Go standard-library methods used by `shouldSkipAddr`. -/

abbrev IPBytes := List Nat

/-- The 12-byte prefix `::ffff:` marking an IPv4-in-IPv6 address. -/
def v4InV6Prefix : IPBytes := [0, 0, 0, 0, 0, 0, 0, 0, 0, 0, 255, 255]

/-- Go `IP.To4`. -/
def ipTo4 (ip : IPBytes) : Option IPBytes :=
  if ip.length = 4 then some ip
  else if ip.length = 16 ∧ ip.take 12 = v4InV6Prefix then some (ip.drop 12)
  else none

/-- Go `IP.Equal` (handles mixed 4-byte/16-byte representations). -/
def ipEqual (a b : IPBytes) : Bool :=
  if a.length = b.length then a = b
  else if a.length = 4 ∧ b.length = 16 then b.take 12 = v4InV6Prefix ∧ a = b.drop 12
  else if a.length = 16 ∧ b.length = 4 then a.take 12 = v4InV6Prefix ∧ a.drop 12 = b
  else false

/-- Go `net.IPv6loopback` (`::1`). -/
def ipv6Loopback : IPBytes := [0, 0, 0, 0, 0, 0, 0, 0, 0, 0, 0, 0, 0, 0, 0, 1]

/-- Go `net.IPv6unspecified` (`::`). -/
def ipv6Unspecified : IPBytes := [0, 0, 0, 0, 0, 0, 0, 0, 0, 0, 0, 0, 0, 0, 0, 0]

/-- Go `net.IPv4zero` (16-byte form of `0.0.0.0`). -/
def ipv4Zero : IPBytes := v4InV6Prefix ++ [0, 0, 0, 0]

/-- Go `net.IPv4bcast` (16-byte form of `255.255.255.255`). -/
def ipv4Bcast : IPBytes := v4InV6Prefix ++ [255, 255, 255, 255]

/-- Go `IP.IsLoopback`. -/
def ipIsLoopback (ip : IPBytes) : Bool :=
  match ipTo4 ip with
  | some p4 => p4.getD 0 0 = 127
  | none => ipEqual ip ipv6Loopback

/-- Go `IP.IsMulticast`. -/
def ipIsMulticast (ip : IPBytes) : Bool :=
  match ipTo4 ip with
  | some p4 => p4.getD 0 0 &&& 240 = 224
  | none => ip.length = 16 ∧ ip.getD 0 0 = 255

/-- Go `IP.IsLinkLocalUnicast`. -/
def ipIsLinkLocalUnicast (ip : IPBytes) : Bool :=
  match ipTo4 ip with
  | some p4 => p4.getD 0 0 = 169 ∧ p4.getD 1 0 = 254
  | none => ip.length = 16 ∧ ip.getD 0 0 = 254 ∧ ip.getD 1 0 &&& 192 = 128

/-- Go `IP.IsUnspecified`. -/
def ipIsUnspecified (ip : IPBytes) : Bool :=
  ipEqual ip ipv4Zero || ipEqual ip ipv6Unspecified

/-- Go `IP.IsGlobalUnicast`. -/
def ipIsGlobalUnicast (ip : IPBytes) : Bool :=
  (ip.length = 4 ∨ ip.length = 16)
  && !ipEqual ip ipv4Bcast
  && !ipIsUnspecified ip
  && !ipIsLoopback ip
  && !ipIsMulticast ip
  && !ipIsLinkLocalUnicast ip

/-- Go `IPNet.Contains` for a network given in canonical `ParseCIDR` form
(4-byte address and mask for IPv4 networks, 16-byte for IPv6). -/
def ipNetContains (nn mask : IPBytes) (ip : IPBytes) : Bool :=
  let ip' := (ipTo4 ip).getD ip
  ip'.length = nn.length
  && (List.range nn.length).all
      (fun i => nn.getD i 0 &&& mask.getD i 0 = ip'.getD i 0 &&& mask.getD i 0)

/-- The package-level `privateIPBlocks` table built by `init()` in notifier.go:
127.0.0.0/8, 10.0.0.0/8, 172.16.0.0/12, 192.168.0.0/16, 169.254.0.0/16,
::1/128, fe80::/10, fc00::/7, each as (network number, mask). -/
def privateIPBlocks : List (IPBytes × IPBytes) :=
  [([127, 0, 0, 0], [255, 0, 0, 0]),
   ([10, 0, 0, 0], [255, 0, 0, 0]),
   ([172, 16, 0, 0], [255, 240, 0, 0]),
   ([192, 168, 0, 0], [255, 255, 0, 0]),
   ([169, 254, 0, 0], [255, 255, 0, 0]),
   (ipv6Loopback, List.replicate 16 255),
   ([254, 128] ++ List.replicate 14 0, [255, 192] ++ List.replicate 14 0),
   ([252] ++ List.replicate 15 0, [254] ++ List.replicate 15 0)]

/-!  ## Addresses

`net.Addr` is an open interface; the program works with `*net.TCPAddr`,
`*net.UDPAddr`, the repo's own `*NetpuncherAddr`, and (in `shouldSkipAddr`'s
`default` branch) any other implementation, which the cache only ever observes
through its `Network()` and `String()` methods — the `other` constructor
carries exactly those two observations. -/

inductive GoAddr : Type where
  | tcp (ip : IPBytes) (port : Int) (zone : String)
  | udp (ip : IPBytes) (port : Int) (zone : String)
  | netpuncher (net : String) (addr : String) (id : Nat)
  | other (network : String) (str : String)
deriving DecidableEq, Repr

/-- The body of `shouldSkipAddr` after the type switch extracted `ip`:
skip unless global unicast, and skip anything inside `privateIPBlocks`. -/
def shouldSkipIP (ip : IPBytes) : Bool :=
  if !ipIsGlobalUnicast ip then true
  else privateIPBlocks.any (fun b => ipNetContains b.1 b.2 ip)

/-- `shouldSkipAddr` from notifier.go: local/private addresses are never
tested; a `NetpuncherAddr` is never skipped; unknown address types are
always skipped. -/
def shouldSkipAddr (addr : GoAddr) : Bool :=
  match addr with
  | .tcp ip _ _ => shouldSkipIP ip
  | .udp ip _ _ => shouldSkipIP ip
  | .netpuncher _ _ _ => false
  | .other _ _ => true

/-!  ## Address strings and cache keys

`cacheAddrKey(a) = fmt.Sprintf("%s:%s", a.Network(), a.String())`.  The
`String()` of `TCPAddr`/`UDPAddr` goes through `net.IP.String` (dotted quad
for IPv4, RFC 5952 for IPv6) and `net.JoinHostPort`. -/

/-- One lowercase hex digit. -/
def hexDigitChar (n : Nat) : Char :=
  if n < 10 then Char.ofNat (48 + n) else Char.ofNat (87 + n)

/-- Go net's `hexString` ("?"-fallback rendering): two hex digits per byte. -/
def hexString (b : IPBytes) : String :=
  String.mk (b.foldr (fun x acc => hexDigitChar (x / 16 % 16) :: hexDigitChar (x % 16) :: acc) [])

/-- Go net's `appendHex` for one 16-bit group: lowercase hex, no leading
zeros, at least one digit. -/
def hex16 (v : Nat) : String :=
  let ds := [v / 4096 % 16, v / 256 % 16, v / 16 % 16, v % 16]
  let ds := ds.dropWhile (fun d => d = 0)
  String.mk ((if ds = [] then [0] else ds).map hexDigitChar)

/-- The eight 16-bit groups of a 16-byte IPv6 address. -/
def ipv6Groups (ip : IPBytes) : List Nat :=
  (List.range 8).map (fun i => ip.getD (2 * i) 0 * 256 + ip.getD (2 * i + 1) 0)

/-- The leftmost longest run of zero groups (start, length), as found by the
`e0`/`e1` scan in Go's `IP.String`; runs of a single group are not used. -/
def bestZeroRun (gs : List Nat) : Option (Nat × Nat) :=
  let cands := (List.range gs.length).map
    (fun st => (st, ((gs.drop st).takeWhile (fun g => g = 0)).length))
  let best := cands.foldl (fun acc c => if c.2 > acc.2 then c else acc) (0, 0)
  if best.2 ≥ 2 then some best else none

/-- Go `IP.String` restricted to well-formed inputs plus its fallbacks:
empty slice renders `<nil>`, otherwise dotted quad via `To4`, otherwise the
`?`+hex fallback for bad lengths, otherwise RFC 5952 with `::` compression. -/
def ipString (ip : IPBytes) : String :=
  if ip.length = 0 then "<nil>"
  else match ipTo4 ip with
  | some p4 =>
      toString (p4.getD 0 0) ++ "." ++ toString (p4.getD 1 0) ++ "." ++
      toString (p4.getD 2 0) ++ "." ++ toString (p4.getD 3 0)
  | none =>
      if ip.length ≠ 16 then "?" ++ hexString ip
      else
        let gs := ipv6Groups ip
        match bestZeroRun gs with
        | none => String.intercalate ":" (gs.map hex16)
        | some (st, len) =>
            String.intercalate ":" ((gs.take st).map hex16) ++ "::" ++
            String.intercalate ":" ((gs.drop (st + len)).map hex16)

/-- Go `net.JoinHostPort`. -/
def joinHostPort (host port : String) : String :=
  if host.data.any (fun c => c = ':') then "[" ++ host ++ "]:" ++ port
  else host ++ ":" ++ port

/-- `TCPAddr.String` / `UDPAddr.String` (they are textually identical).  An
empty IP renders as the empty host (`ipEmptyString`). -/
def tcpUdpAddrString (ip : IPBytes) (port : Int) (zone : String) : String :=
  let ipStr := if ip.length = 0 then "" else ipString ip
  if zone ≠ "" then joinHostPort (ipStr ++ "%" ++ zone) (toString port)
  else joinHostPort ipStr (toString port)

/-- `net.Addr.Network()` for the four kinds the program meets. -/
def addrNetwork : GoAddr → String
  | .tcp _ _ _ => "tcp"
  | .udp _ _ _ => "udp"
  | .netpuncher n _ _ => n
  | .other n _ => n

/-- `net.Addr.String()`; `NetpuncherAddr.String` is `fmt.Sprintf("%s#%d", Addr, ID)`. -/
def addrString : GoAddr → String
  | .tcp ip port zone => tcpUdpAddrString ip port zone
  | .udp ip port zone => tcpUdpAddrString ip port zone
  | .netpuncher _ a i => a ++ "#" ++ toString i
  | .other _ s => s

/-- `cacheAddrKey` from cache.go. -/
def cacheAddrKey (a : GoAddr) : String :=
  addrNetwork a ++ ":" ++ addrString a

/-!  ## Notifier (notifier.go)

The subscriber set is a `container/list` of buffered channels of capacity
`notifierBufSize`, mutated under the channel-as-mutex token `st`.  A channel
object is modelled by its identity (the order of registration) and the events
currently buffered and not yet drained; a `select` send with `default`
succeeds exactly when the buffer holds fewer than `notifierBufSize` events
(the claims concern subscribers that do not drain concurrently, so buffer
occupancy is the criterion).

Two behaviours of the Go code matter and are modelled exactly.  First,
`Notify` removes a full subscriber with `st.wait.Remove(e)` while iterating:
`container/list.Remove` nils the element's links, so the following
`e = e.Next()` yields `nil` and the loop terminates — subscribers after the
removed element are not visited for this event (`notifyList`'s full branch
returns the untouched remainder of the list).  Second, `Register` pushes the
channel into the list as a *bidirectional* `chan interface` value but returns
it under the receive-only type `<-chan interface`; `Unregister` then tests
`e.Value == c`, a comparison of an interface value against a non-interface
operand, which per the Go specification is true only if the interface's
dynamic type is *identical* to the operand's type and the values are equal.
Channel types of different directions are never identical, so the test is
false at every element.  `ChanVal` records the direction a channel value is
viewed under together with the channel object's identity, `goChanIfaceEq` is
that Go comparison, and `unregList` scans with it — removing, as the code
does, nothing. -/

/-- `notifierBufSize` from notifier.go. -/
def notifierBufSize : Nat := 10

/-- The direction a channel type is written with. -/
inductive ChanDir : Type where
  | bidi
  | recvOnly
deriving DecidableEq, Repr

/-- A channel value as boxed in an interface: its dynamic channel type
(the direction it was converted under) and the identity of the underlying
channel object. -/
structure ChanVal where
  dir : ChanDir
  ch : Nat
deriving DecidableEq, Repr

/-- Go `==` on interface-boxed channel values: equal only if the dynamic
types are identical (same direction) and they are the same channel object. -/
def goChanIfaceEq (a b : ChanVal) : Bool :=
  a.dir = b.dir ∧ a.ch = b.ch

/-- One registered subscription: the channel object's identity and its
buffered events.  The list element's `e.Value` holds this channel as the
bidirectional value `Register` pushed. -/
structure NSub (α : Type) where
  id : Nat
  buf : List α
deriving DecidableEq, Repr

/-- The notifier's token state: live subscriber list and the next channel
identity to hand out. -/
structure NState (α : Type) where
  subs : List (NSub α)
  nextId : Nat
deriving DecidableEq, Repr

/-- `NewNotifier`. -/
def newNotifier (α : Type) : NState α := ⟨[], 0⟩

/-- `Register`: append a fresh empty channel to the list (stored as a
bidirectional value) and return it under the receive-only type — the type
the caller's copy is boxed with at any later `Unregister` call. -/
def nRegister {α : Type} (st : NState α) : NState α × ChanVal :=
  (⟨st.subs ++ [⟨st.nextId, []⟩], st.nextId + 1⟩, ⟨ChanDir.recvOnly, st.nextId⟩)

/-- The `Unregister` scan: remove the first element with `e.Value == c`,
then break; the stored value is the bidirectional channel. -/
def unregList {α : Type} (c : ChanVal) : List (NSub α) → List (NSub α)
  | [] => []
  | s :: rest =>
      if goChanIfaceEq ⟨ChanDir.bidi, s.id⟩ c then rest else s :: unregList c rest

/-- `Unregister`. -/
def nUnregister {α : Type} (c : ChanVal) (st : NState α) : NState α :=
  ⟨unregList c st.subs, st.nextId⟩

/-- The `Notify` loop over the subscriber list.  Returns the subscribers that
remain live (with delivered events appended) and the subscribers that were
removed and closed.  A full subscriber is removed and closed, and — as in the
Go code — iteration stops there, leaving the rest of the list unvisited. -/
def notifyList {α : Type} (ev : α) : List (NSub α) → List (NSub α) × List (NSub α)
  | [] => ([], [])
  | s :: rest =>
      if s.buf.length < notifierBufSize then
        let r := notifyList ev rest
        (⟨s.id, s.buf ++ [ev]⟩ :: r.1, r.2)
      else
        (rest, [s])

/-- `Notify`. -/
def nNotify {α : Type} (ev : α) (st : NState α) : NState α × List (NSub α) :=
  let r := notifyList ev st.subs
  (⟨r.1, st.nextId⟩, r.2)

theorem notifyList_ids_subset {α : Type} (ev : α) (l : List (NSub α)) :
    ∀ s ∈ (notifyList ev l).1, s.id ∈ l.map NSub.id := by
  induction l with
  | nil => simp [notifyList]
  | cons x rest ih =>
    intro s hs
    by_cases hx : x.buf.length < notifierBufSize
    · simp only [notifyList, if_pos hx, List.mem_cons] at hs
      rcases hs with h | h
      · subst h; simp
      · simp only [List.map_cons, List.mem_cons]
        exact Or.inr (ih s h)
    · simp only [notifyList, if_neg hx] at hs
      simp only [List.map_cons, List.mem_cons]
      exact Or.inr (List.mem_map_of_mem NSub.id hs)

theorem unregList_recvOnly {α : Type} (ch : Nat) (l : List (NSub α)) :
    unregList ⟨ChanDir.recvOnly, ch⟩ l = l := by
  induction l with
  | nil => rfl
  | cons s rest ih =>
    have hfalse : goChanIfaceEq ⟨ChanDir.bidi, s.id⟩ ⟨ChanDir.recvOnly, ch⟩ = false := by
      simp [goChanIfaceEq]
    simp [unregList, hfalse, ih]

/-!  ## Streaming ingestion client (eventsource/eventsource.go)

The body-parsing goroutine of `receive` keeps `data`, `eventType`,
`lastEventID` and `retry` and processes the body line by line.  `processLine`
is that loop body for one line: the dispatched messages (sends on
`es.OnMessage`) are returned alongside the new state. -/

/-- `DefaultRetry` from eventsource.go. -/
def defaultRetry : Nat := 3000

/-- The parser state of `EventSource.receive`'s body goroutine, plus the
`retry` interval of the connect loop (in milliseconds). -/
structure ESState where
  data : String
  eventType : String
  lastEventID : String
  retry : Nat
deriving DecidableEq, Repr

/-- An SSE event as delivered on `OnMessage`. -/
structure ESMessage where
  EventType : String
  Data : String
  LastEventID : String
deriving DecidableEq, Repr

/-- `strings.SplitN(line, ":", 2)`: the part before the first colon, and the
part after it when a colon exists. -/
def splitColonList : List Char → List Char × Option (List Char)
  | [] => ([], none)
  | c :: rest =>
      if c = ':' then ([], some rest)
      else
        let r := splitColonList rest
        (c :: r.1, r.2)

/-- `strings.SplitN(line, ":", 2)` on strings. -/
def splitColon (s : String) : String × Option String :=
  let r := splitColonList s.data
  (String.mk r.1, r.2.map String.mk)

/-- `strings.TrimPrefix(v, " ")`: drop one leading space if present. -/
def trimLeadSpace (s : String) : String :=
  match s.data with
  | c :: rest => if c = ' ' then String.mk rest else s
  | [] => s

/-- `strings.TrimSuffix(data, "\n")`: drop one trailing newline if present. -/
def trimTrailNL (s : String) : String :=
  if s.data.getLast? = some '\n' then String.mk s.data.dropLast else s

/-- `strconv.ParseUint(s, 10, 32)`: succeeds exactly on a nonempty string of
decimal digits whose value fits in 32 bits. -/
def parseUint32 (s : String) : Option Nat :=
  if s.data = [] then none
  else if s.data.all (fun c => '0' ≤ c ∧ c ≤ '9') then
    let v := s.data.foldl (fun n c => n * 10 + (c.toNat - 48)) 0
    if v ≤ 4294967295 then some v else none
  else none

/-- One iteration of the `for scanner.Scan()` body in `receive`: a blank line
dispatches the accumulated event (if `data` is nonempty) and resets the
buffers, then the line is split at the first colon and the field switch runs
(for a blank line the field is empty, so the switch does nothing). -/
def processLine (st : ESState) (line : String) : ESState × List ESMessage :=
  let disp :=
    if line = "" then
      (if st.data ≠ "" then
        ({ st with data := "", eventType := "" },
         [⟨st.eventType, trimTrailNL st.data, st.lastEventID⟩])
      else ({ st with data := "", eventType := "" }, ([] : List ESMessage)))
    else (st, ([] : List ESMessage))
  let st1 := disp.1
  let sp := splitColon line
  let value := match sp.2 with
    | some r => trimLeadSpace r
    | none => ""
  if sp.1 = "" then disp
  else if sp.1 = "event" then ({ st1 with eventType := value }, disp.2)
  else if sp.1 = "data" then ({ st1 with data := st1.data ++ value ++ "\n" }, disp.2)
  else if sp.1 = "id" then ({ st1 with lastEventID := value }, disp.2)
  else if sp.1 = "retry" then
    (match parseUint32 value with
     | some r => { st1 with retry := r }
     | none => st1, disp.2)
  else disp

/-!  ## Session cache (cache.go)

`LeagueGame` carries the JSON fields of a game event; the cache reads only
`ID` and stores the rest opaquely.  A `CacheItem`'s `Addrs` field is a Go map
value, i.e. a *reference* to a mutable table; those tables live in the store
`CHeap`, keyed by allocation number, so that `CacheItem` assignment copies the
reference (as in Go) while `Clone`/`copyState` allocate fresh tables.  The
`run` loop's four request handlers and the check-result handler are modelled
as pure functions from state to state plus their outputs: the notifications
pushed through `GameUpdates.Notify` and the `go c.check(...)` probes spawned. -/

/-- `LeagueGame.Flags`. -/
structure LGFlags where
  JoinAllowed : Bool
  PasswordNeeded : Bool
deriving DecidableEq, Repr, Inhabited

/-- `LeagueGame.Scenario`. -/
structure LGScenario where
  FileSize : Int
  FileCRC : Int
  ContentsCRC : Int
  Filename : String
  Author : String
deriving DecidableEq, Repr, Inhabited

/-- One entry of `LeagueGame.Players`. -/
structure LGPlayer where
  Name : String
  Team : Int
  Color : Int
deriving DecidableEq, Repr, Inhabited

/-- `LeagueGame` (crema.go / league JSON). -/
structure LeagueGame where
  ID : Int
  Title : String
  Status : String
  «Type» : String
  Comment : String
  MaxPlayers : Int
  Host : String
  Created : String
  Updated : String
  Engine : String
  EngineBuild : String
  Flags : LGFlags
  Scenario : LGScenario
  Players : List LGPlayer
deriving DecidableEq, Repr, Inhabited

/-- `ConnectStatus`: `Pending = 0` is the zero value, `Success = 1`,
`Failure = 2`. -/
inductive ConnectStatus : Type where
  | pending
  | success
  | failure
deriving DecidableEq, Repr, Inhabited

/-- `CacheItemAddr`; `Addr` is a `net.Addr` interface value and may be `nil`
(`none`), which is what the zero value `CacheItemAddr{}` holds. -/
structure CacheItemAddr where
  Addr : Option GoAddr
  Status : ConnectStatus
deriving DecidableEq, Repr

/-- The contents of one `map[string]CacheItemAddr` table. -/
abbrev AddrMap := List (String × CacheItemAddr)

/-- The store of all live `map[string]CacheItemAddr` objects: contents by
allocation number, plus the next allocation number. -/
structure CHeap where
  maps : List (Nat × AddrMap)
  next : Nat
deriving DecidableEq, Repr

/-- Dereference a map value (Go never reads through a dangling reference
here, so a default suffices for totality). -/
def heapRead (h : CHeap) (r : Nat) : AddrMap :=
  (mapLookup h.maps r).getD []

/-- Mutate the table behind reference `r` in place. -/
def heapWrite (h : CHeap) (r : Nat) (m : AddrMap) : CHeap :=
  ⟨mapInsert h.maps r m, h.next⟩

/-- `make(map[string]CacheItemAddr)` (with given initial contents for
`Clone`): returns the fresh reference and the grown store. -/
def heapAlloc (h : CHeap) (m : AddrMap) : Nat × CHeap :=
  (h.next, ⟨mapInsert h.maps h.next m, h.next + 1⟩)

/-- `CacheItem`: game payload plus the *reference* to its address table. -/
structure CacheItemH where
  Game : LeagueGame
  Addrs : Nat
deriving DecidableEq, Repr

/-- The cache's private state: `c.games` plus the store of address tables. -/
structure CState where
  games : List (Int × CacheItemH)
  heap : CHeap
deriving DecidableEq, Repr

/-- `NewCache`'s initial state. -/
def cacheInit : CState := ⟨[], ⟨[], 0⟩⟩

/-- The value shape of a notification payload: `CacheItem.Clone` deep-copies
the address table, so the payload is a plain value. -/
structure CacheItemVal where
  Game : LeagueGame
  Addrs : AddrMap
deriving DecidableEq, Repr

/-- `CacheUpdate` as broadcast on `GameUpdates`; `G = none` for deletions. -/
structure CacheUpdate where
  ID : Int
  G : Option CacheItemVal
deriving DecidableEq, Repr

/-- A `cacheCheckMsg` as sent to a probe goroutine (`status` not yet filled). -/
structure CheckMsg where
  id : Int
  addr : GoAddr
deriving DecidableEq, Repr

/-- A completed probe result arriving on `checkResultChan`. -/
structure CheckResult where
  id : Int
  addr : GoAddr
  status : ConnectStatus
deriving DecidableEq, Repr

/-- The `updateGame` closure in `Cache.run`: upsert by ID, allocating an
empty address table for an unseen game, preserving the existing table
(same reference) otherwise. -/
def updateGame (s : CState) (game : LeagueGame) : CState :=
  match mapLookup s.games game.ID with
  | some g => { s with games := mapInsert s.games game.ID ⟨game, g.Addrs⟩ }
  | none =>
      let a := heapAlloc s.heap []
      ⟨mapInsert s.games game.ID ⟨game, a.1⟩, a.2⟩

/-- `Cache.notifyGameUpdate`: a present game is cloned (deep copy of its
address table) into a change notification; an absent one yields a deletion
notification. -/
def notifyGameUpdate (s : CState) (id : Int) : CacheUpdate :=
  match mapLookup s.games id with
  | some g => ⟨id, some ⟨g.Game, heapRead s.heap g.Addrs⟩⟩
  | none => ⟨id, none⟩

/-- The first loop of the `reqUpdateAll` handler: upsert every incoming
game, notifying after each upsert. -/
def updateAllLoop : CState × List CacheUpdate → List LeagueGame → CState × List CacheUpdate
  | acc, [] => acc
  | acc, game :: rest =>
      let s' := updateGame acc.1 game
      updateAllLoop (s', acc.2 ++ [notifyGameUpdate s' game.ID]) rest

/-- The deletion loop of the `reqUpdateAll` handler: delete each id,
notifying after each deletion (the lookup fails, so the notification is a
deletion notification). -/
def deleteLoop : CState × List CacheUpdate → List Int → CState × List CacheUpdate
  | acc, [] => acc
  | acc, id :: rest =>
      let s' : CState := ⟨mapDelete acc.1.games id, acc.1.heap⟩
      deleteLoop (s', acc.2 ++ [notifyGameUpdate s' id]) rest

/-- The `reqUpdateAll` handler: upsert every incoming game (notifying after
each), then delete every game whose ID was not seen (notifying after each
deletion; Go iterates the map in unspecified order — the model uses the
list order of the current state). -/
def doUpdateAll (s : CState) (games : List LeagueGame) : CState × List CacheUpdate :=
  let up := updateAllLoop (s, []) games
  let seen := games.map LeagueGame.ID
  deleteLoop up ((up.1.games.filter (fun p => !seen.contains p.1)).map Prod.fst)

/-- The `reqUpdateSingle` handler. -/
def doUpdateSingle (s : CState) (game : LeagueGame) : CState × List CacheUpdate :=
  let s' := updateGame s game
  (s', [notifyGameUpdate s' game.ID])

/-- The `reqUpdateAddrs` loop body over the address list, for a known game:
`mapRef` is the game's address-table reference, read once before the loop.
Skipped addresses and addresses whose key is already present are ignored;
fresh ones are inserted with status Pending and a probe is spawned. -/
def updateAddrsLoop (id : Int) (mapRef : Nat) :
    CState → List GoAddr → CState × List CheckMsg
  | s, [] => (s, [])
  | s, addr :: rest =>
      if shouldSkipAddr addr then updateAddrsLoop id mapRef s rest
      else
        let m := heapRead s.heap mapRef
        match mapLookup m (cacheAddrKey addr) with
        | some _ => updateAddrsLoop id mapRef s rest
        | none =>
            let m' := mapInsert m (cacheAddrKey addr) ⟨some addr, ConnectStatus.pending⟩
            let s' : CState := { s with heap := heapWrite s.heap mapRef m' }
            let r := updateAddrsLoop id mapRef s' rest
            (r.1, ⟨id, addr⟩ :: r.2)

/-- The `reqUpdateAddrs` handler: dropped entirely for unknown games. -/
def doUpdateAddrs (s : CState) (id : Int) (addrs : List GoAddr) :
    CState × List CheckMsg :=
  match mapLookup s.games id with
  | some game => updateAddrsLoop id game.Addrs s addrs
  | none => (s, [])

/-- The `reqDelete` handler: delete, then notify unconditionally (the
notification is a deletion notification since the game is gone). -/
def doDelete (s : CState) (id : Int) : CState × List CacheUpdate :=
  let s' : CState := ⟨mapDelete s.games id, s.heap⟩
  (s', [notifyGameUpdate s' id])

/-- The `checkResultChan` handler: results for unknown games are discarded;
otherwise `a := game.Addrs[key]` takes the entry — or the zero value
`CacheItemAddr{}` when the key is absent — sets its status and stores it
back, then notifies. -/
def doCheckResult (s : CState) (res : CheckResult) : CState × List CacheUpdate :=
  match mapLookup s.games res.id with
  | none => (s, [])
  | some game =>
      let key := cacheAddrKey res.addr
      let m := heapRead s.heap game.Addrs
      let a := (mapLookup m key).getD ⟨none, .pending⟩
      let s' : CState :=
        { s with heap := heapWrite s.heap game.Addrs (mapInsert m key ⟨a.Addr, res.status⟩) }
      (s', [notifyGameUpdate s' res.id])

/-- `Cache.copyState` over the games list: each item is `Clone`d, i.e. its
address table is copied into a freshly allocated table. -/
def copyStateAux (h : CHeap) : List (Int × CacheItemH) → List (Int × CacheItemH) × CHeap
  | [] => ([], h)
  | (id, g) :: rest =>
      let a := heapAlloc h (heapRead h g.Addrs)
      let r := copyStateAux a.2 rest
      ((id, ⟨g.Game, a.1⟩) :: r.1, r.2)

/-- `Cache.copyState`. -/
def copyState (s : CState) : List (Int × CacheItemH) × CHeap :=
  copyStateAux s.heap s.games

/-- The `requestGamesChan` (`Get`) handler: the snapshot handed to the
caller, and the cache state afterwards (its own games untouched, the store
grown by the snapshot's fresh tables). -/
def doGet (s : CState) : List (Int × CacheItemH) × CState :=
  let r := copyState s
  (r.1, { s with heap := r.2 })

/-- One request into the serialized `run` loop. -/
inductive CacheReq : Type where
  | updateAll (games : List LeagueGame)
  | updateSingle (game : LeagueGame)
  | updateAddrs (id : Int) (addrs : List GoAddr)
  | delete (id : Int)
  | checkResult (res : CheckResult)
  | get
deriving DecidableEq, Repr

/-- The state transition of one `run`-loop iteration. -/
def cacheStep (s : CState) : CacheReq → CState
  | .updateAll games => (doUpdateAll s games).1
  | .updateSingle game => (doUpdateSingle s game).1
  | .updateAddrs id addrs => (doUpdateAddrs s id addrs).1
  | .delete id => (doDelete s id).1
  | .checkResult res => (doCheckResult s res).1
  | .get => (doGet s).2

/-- A serialized sequence of requests. -/
def cacheRun (s : CState) (reqs : List CacheReq) : CState :=
  reqs.foldl cacheStep s

/-!  ## Store lemmas -/

theorem heapRead_write_self (h : CHeap) (r : Nat) (m : AddrMap) :
    heapRead (heapWrite h r m) r = m := by
  simp [heapRead, heapWrite, mapLookup_insert_self]

theorem heapRead_write_ne (h : CHeap) (r r' : Nat) (m : AddrMap) (hne : r' ≠ r) :
    heapRead (heapWrite h r m) r' = heapRead h r' := by
  simp [heapRead, heapWrite, mapLookup_insert_ne _ _ _ _ hne]

theorem heapRead_alloc_self (h : CHeap) (m : AddrMap) :
    heapRead (heapAlloc h m).2 (heapAlloc h m).1 = m := by
  simp [heapRead, heapAlloc, mapLookup_insert_self]

theorem heapRead_alloc_lt (h : CHeap) (m : AddrMap) (r : Nat) (hr : r < h.next) :
    heapRead (heapAlloc h m).2 r = heapRead h r := by
  simp [heapRead, heapAlloc, mapLookup_insert_ne _ _ _ _ (Nat.ne_of_lt hr)]

/-- A concrete game record used by the concrete runs below. -/
def sampleGame (id : Int) (title : String) : LeagueGame :=
  { ID := id, Title := title, Status := "", «Type» := "", Comment := "", MaxPlayers := 0,
    Host := "", Created := "", Updated := "", Engine := "", EngineBuild := "",
    Flags := default, Scenario := default, Players := [] }

/-- A concrete globally-routable TCP address (key `tcp:1.2.3.4:80`). -/
def gAddr : GoAddr := .tcp [1, 2, 3, 4] 80 ""

/-- A cache holding the single game 1 with an empty address table. -/
def oneGameState : CState := (doUpdateSingle cacheInit (sampleGame 1 "a")).1

/-!  ## C1 — Notify's drop-on-full semantics -/

/-- C1: the claim says that when `Notify(event)` drops a full subscriber,
every other registered subscriber still receives that event.  The code
violates this: `st.wait.Remove(e)` nils the links of `e`, so the loop's
`e = e.Next()` yields `nil` and `Notify` returns without visiting the
subscribers after the dropped one.  Concretely, with subscriber 0 full
(`notifierBufSize` undrained events) and subscriber 1 empty, `Notify`
closes subscriber 0 and subscriber 1 stays live with an *empty* buffer —
event 7 was never delivered to it.  With the registration order reversed,
subscriber 1 does receive the event, exhibiting the order dependence. -/
theorem notify_drop_stops_delivery :
    notifyList 7 [(⟨0, List.replicate notifierBufSize 0⟩ : NSub Nat), ⟨1, []⟩]
      = ([⟨1, []⟩], [⟨0, List.replicate notifierBufSize 0⟩])
    ∧ notifyList 7 [(⟨1, []⟩ : NSub Nat), ⟨0, List.replicate notifierBufSize 0⟩]
      = ([⟨1, [7]⟩], [⟨0, List.replicate notifierBufSize 0⟩]) := by
  exact ⟨rfl, rfl⟩

/-!  ## C5 — Unregister -/

/-- C5: the claim says `Unregister` of a subscription previously returned by
`Register` and still in the live set removes exactly that subscription, which
then receives no further events.  The code violates this, and the spec
(§4.1, "removes the given subscription from the live set if present") is
clearly the intent: `Register` stores the channel in the list with dynamic
type `chan interface` but returns it as `<-chan interface`, and
`Unregister`'s `e.Value == c` is a Go interface comparison that succeeds only
for an identical dynamic type — channel types of different directions are
never identical, so the test is false at every element and `Unregister`
removes nothing.  (The absent/already-retired no-op half of the claim holds
vacuously, since `Unregister` never changes anything.)  Over the model:
unregistering any receive-only handle — in particular the one `Register`
just returned — leaves the state unchanged, a later `Notify` behaves as if
`Unregister` had never been called, and on a fresh notifier the
"unregistered" subscription is still live and still receives the next
event. -/
theorem unregister_never_removes (α : Type) (st : NState α) (ch : Nat) (ev : α) :
    nUnregister ⟨ChanDir.recvOnly, ch⟩ st = st
    ∧ nUnregister (nRegister st).2 (nRegister st).1 = (nRegister st).1
    ∧ nNotify ev (nUnregister (nRegister st).2 (nRegister st).1)
        = nNotify ev (nRegister st).1
    ∧ (nNotify ev (nUnregister (nRegister (newNotifier α)).2
        (nRegister (newNotifier α)).1)).1.subs = [⟨0, [ev]⟩] := by
  have hgen : ∀ (c : Nat) (s : NState α), nUnregister ⟨ChanDir.recvOnly, c⟩ s = s := by
    intro c s
    cases s
    simp [nUnregister, unregList_recvOnly]
  have h2 : (nRegister st).2 = ⟨ChanDir.recvOnly, st.nextId⟩ := rfl
  refine ⟨hgen ch st, ?_, ?_, ?_⟩
  · rw [h2, hgen _ _]
  · rw [h2, hgen _ _]
  · have h0 : (nRegister (newNotifier α)).2 = ⟨ChanDir.recvOnly, 0⟩ := rfl
    rw [h0, hgen _ _]
    rfl

/-!  ## C9 — the `retry` field and unknown fields -/

/-- C9 counterexample: the claim says any `retry` line whose value parses as
a non-negative integer updates the reconnection interval.  The code parses
with `strconv.ParseUint(value, 10, 32)`, so the non-negative integer
4294967296 = 2^32 (and any larger one) fails the parse and the interval is
left at its previous value (here the default 3000) instead of being
updated. -/
theorem retry_overflow_ignored_cex :
    processLine ⟨"", "", "", defaultRetry⟩ "retry: 4294967296"
      = (⟨"", "", "", defaultRetry⟩, [])
    ∧ defaultRetry ≠ 4294967296 := by
  exact ⟨by decide, by decide⟩

/-- C9 (amended): a `retry` line whose value is a nonempty decimal-digit
string with value at most 2^32 − 1 (i.e. accepted by
`strconv.ParseUint(value, 10, 32)`) sets the reconnection interval to that
value and changes nothing else; a `retry` line whose value fails that parse,
and any line with an unknown field name, leave the whole parsing state
(data buffer, event type, last event id, retry interval) unchanged and
dispatch nothing. -/
theorem retry_field_and_unknown_fields (st : ESState) (line : String) :
    (∀ rest r, splitColon line = ("retry", some rest) →
        parseUint32 (trimLeadSpace rest) = some r →
        processLine st line = ({ st with retry := r }, []))
    ∧ (∀ rest, splitColon line = ("retry", some rest) →
        parseUint32 (trimLeadSpace rest) = none →
        processLine st line = (st, []))
    ∧ (splitColon line = ("retry", none) → processLine st line = (st, []))
    ∧ (∀ f rest, splitColon line = (f, rest) →
        f ≠ "" → f ≠ "event" → f ≠ "data" → f ≠ "id" → f ≠ "retry" →
        processLine st line = (st, [])) := by
  have hne : ∀ f rest, splitColon line = (f, rest) → f ≠ "" → line ≠ "" := by
    intro f rest hsp hf hl
    subst hl
    have : splitColon "" = ("", none) := rfl
    rw [this] at hsp
    exact hf (congrArg Prod.fst hsp).symm
  refine ⟨?_, ?_, ?_, ?_⟩
  · intro rest r hsp hparse
    have hl := hne _ _ hsp (by decide)
    simp [processLine, hl, hsp, hparse]
  · intro rest hsp hparse
    have hl := hne _ _ hsp (by decide)
    simp [processLine, hl, hsp, hparse]
  · intro hsp
    have hl := hne _ _ hsp (by decide)
    simp [processLine, hl, hsp, parseUint32]
  · intro f rest hsp hf he hd hi hr
    have hl := hne _ _ hsp hf
    simp [processLine, hl, hsp, hf, he, hd, hi, hr]

/-- Witness for C9 at a concrete state and line. -/
theorem retry_field_and_unknown_fields_witness :
    splitColon "retry: 250" = ("retry", some " 250")
    ∧ parseUint32 (trimLeadSpace " 250") = some 250
    ∧ processLine ⟨"", "", "", defaultRetry⟩ "retry: 250" = (⟨"", "", "", 250⟩, []) := by
  refine ⟨by decide, by decide, ?_⟩
  exact (retry_field_and_unknown_fields ⟨"", "", "", defaultRetry⟩ "retry: 250").1 " 250" 250 (by decide) (by decide)

/-!  ## C6 — operations on unknown session ids -/

theorem mapLookup_delete_self {κ β : Type} [DecidableEq κ] (m : List (κ × β)) (k : κ) :
    mapLookup (mapDelete m k) k = none := by
  induction m with
  | nil => rfl
  | cons p rest ih =>
    by_cases hp : p.1 = k
    · simp [mapDelete, hp, ih]
    · simp [mapDelete, mapLookup, hp, ih]

/-- C6 counterexample: the claim says `DeleteGame(id)` on an unknown id
emits no notification.  The handler runs `delete(c.games, req.id)` followed
by an unconditional `c.notifyGameUpdate(req.id)`, so deleting the absent id
5 from a fresh cache leaves the state unchanged but emits the deletion
notification `CacheUpdate(5, nil)`. -/
theorem deleteGame_unknown_notifies_cex :
    mapLookup cacheInit.games 5 = none
    ∧ (doDelete cacheInit 5).1 = cacheInit
    ∧ (doDelete cacheInit 5).2 = [⟨5, none⟩]
    ∧ (doDelete cacheInit 5).2 ≠ [] := by
  refine ⟨rfl, rfl, rfl, by decide⟩

/-- C6 (amended): for an id not in the cache, `UpdateAddrs` is a complete
no-op (state unchanged, no probe spawned, and it never notifies), and
`DeleteGame` leaves the state unchanged and spawns nothing but still emits
one deletion notification for that id. -/
theorem unknown_id_semantics (s : CState) (id : Int) (addrs : List GoAddr)
    (h : mapLookup s.games id = none) :
    doUpdateAddrs s id addrs = (s, [])
    ∧ (doDelete s id).1 = s
    ∧ (doDelete s id).2 = [⟨id, none⟩] := by
  refine ⟨?_, ?_, ?_⟩
  · simp [doUpdateAddrs, h]
  · cases s with
    | mk games heap => simp [doDelete, mapDelete_lookup_none games id h]
  · simp [doDelete, notifyGameUpdate, mapLookup_delete_self]

/-- Witness for C6 at a concrete state and id. -/
theorem unknown_id_semantics_witness :
    mapLookup oneGameState.games 7 = none
    ∧ doUpdateAddrs oneGameState 7 [gAddr] = (oneGameState, [])
    ∧ (doDelete oneGameState 7).1 = oneGameState
    ∧ (doDelete oneGameState 7).2 = [⟨7, none⟩] := by
  have h : mapLookup oneGameState.games 7 = none := by decide
  have r := unknown_id_semantics oneGameState 7 [gAddr] h
  exact ⟨h, r.1, r.2.1, r.2.2⟩

/-!  ## `updateAddrsLoop` facts -/

theorem updateAddrsLoop_games (id : Int) (mapRef : Nat) (s : CState) (addrs : List GoAddr) :
    (updateAddrsLoop id mapRef s addrs).1.games = s.games
    ∧ (updateAddrsLoop id mapRef s addrs).1.heap.next = s.heap.next := by
  induction addrs generalizing s with
  | nil => exact ⟨rfl, rfl⟩
  | cons addr rest ih =>
    by_cases hskip : shouldSkipAddr addr
    · simpa [updateAddrsLoop, hskip] using ih s
    · rcases hlk : mapLookup (heapRead s.heap mapRef) (cacheAddrKey addr) with _ | e
      · simp only [updateAddrsLoop, hskip, Bool.false_eq_true, if_false, hlk]
        have := ih { s with heap := (heapWrite s.heap mapRef (mapInsert (heapRead s.heap mapRef) (cacheAddrKey addr) ⟨some addr, ConnectStatus.pending⟩)) }
        simpa [heapWrite] using this
      · simpa [updateAddrsLoop, hskip, hlk] using ih s

theorem updateAddrsLoop_probes (id : Int) (mapRef : Nat) (s : CState) (addrs : List GoAddr) :
    ∀ p ∈ (updateAddrsLoop id mapRef s addrs).2,
      shouldSkipAddr p.addr = false ∧ p.addr ∈ addrs ∧ p.id = id := by
  induction addrs generalizing s with
  | nil => simp [updateAddrsLoop]
  | cons addr rest ih =>
    intro p hp
    by_cases hskip : shouldSkipAddr addr
    · simp only [updateAddrsLoop, hskip, if_true] at hp
      obtain ⟨h1, h2, h3⟩ := ih s p hp
      exact ⟨h1, List.mem_cons_of_mem _ h2, h3⟩
    · rcases hlk : mapLookup (heapRead s.heap mapRef) (cacheAddrKey addr) with _ | e
      · simp only [updateAddrsLoop, hskip, Bool.false_eq_true, if_false, hlk,
          List.mem_cons] at hp
        rcases hp with hp | hp
        · subst hp
          exact ⟨by simpa using hskip, List.mem_cons_self _ _, rfl⟩
        · obtain ⟨h1, h2, h3⟩ := ih _ p hp
          exact ⟨h1, List.mem_cons_of_mem _ h2, h3⟩
      · simp only [updateAddrsLoop, hskip, Bool.false_eq_true, if_false, hlk] at hp
        obtain ⟨h1, h2, h3⟩ := ih s p hp
        exact ⟨h1, List.mem_cons_of_mem _ h2, h3⟩

theorem updateAddrsLoop_frame (id : Int) (mapRef : Nat) (s : CState) (addrs : List GoAddr)
    (r : Nat) (k : String)
    (h : mapLookup (heapRead (updateAddrsLoop id mapRef s addrs).1.heap r) k
          ≠ mapLookup (heapRead s.heap r) k) :
    ∃ a ∈ addrs, shouldSkipAddr a = false ∧ cacheAddrKey a = k ∧ r = mapRef := by
  induction addrs generalizing s with
  | nil => simp [updateAddrsLoop] at h
  | cons addr rest ih =>
    by_cases hskip : shouldSkipAddr addr
    · simp only [updateAddrsLoop, hskip, if_true] at h
      obtain ⟨a, ha, h1, h2, h3⟩ := ih s h
      exact ⟨a, List.mem_cons_of_mem _ ha, h1, h2, h3⟩
    · rcases hlk : mapLookup (heapRead s.heap mapRef) (cacheAddrKey addr) with _ | e
      · simp only [updateAddrsLoop, hskip, Bool.false_eq_true, if_false, hlk] at h
        set s' : CState := { s with heap := (heapWrite s.heap mapRef (mapInsert (heapRead s.heap mapRef) (cacheAddrKey addr) ⟨some addr, ConnectStatus.pending⟩)) } with hs'
        by_cases hmid : mapLookup (heapRead s'.heap r) k = mapLookup (heapRead s.heap r) k
        · rw [← hmid] at h
          obtain ⟨a, ha, h1, h2, h3⟩ := ih s' h
          exact ⟨a, List.mem_cons_of_mem _ ha, h1, h2, h3⟩
        · by_cases hr : r = mapRef
          · subst hr
            rw [hs'] at hmid
            simp only [heapRead_write_self] at hmid
            by_cases hk : k = cacheAddrKey addr
            · exact ⟨addr, List.mem_cons_self _ _, by simpa using hskip, hk.symm, rfl⟩
            · exact absurd (mapLookup_insert_ne _ _ _ _ hk) hmid
          · rw [hs'] at hmid
            simp only [heapRead_write_ne _ _ _ _ hr] at hmid
            exact absurd trivial hmid
      · simp only [updateAddrsLoop, hskip, Bool.false_eq_true, if_false, hlk] at h
        obtain ⟨a, ha, h1, h2, h3⟩ := ih s h
        exact ⟨a, List.mem_cons_of_mem _ ha, h1, h2, h3⟩

/-!  ## C3 — duplicate address submissions -/

/-- C3 counterexample: the claim quantifies over *every* address A, but for
an address that the §4.2 filter skips — here `127.0.0.1:80`, submitted for
the known game 1 — both submissions spawn no probe and create no entry at
all (the table stays empty), not "exactly one probe and exactly one
entry". -/
theorem updateAddrs_skipped_no_entry_cex :
    mapLookup oneGameState.games 1 = some ⟨sampleGame 1 "a", 0⟩
    ∧ shouldSkipAddr (GoAddr.tcp [127, 0, 0, 1] 80 "") = true
    ∧ doUpdateAddrs oneGameState 1 [GoAddr.tcp [127, 0, 0, 1] 80 ""] = (oneGameState, [])
    ∧ doUpdateAddrs (doUpdateAddrs oneGameState 1 [GoAddr.tcp [127, 0, 0, 1] 80 ""]).1 1
        [GoAddr.tcp [127, 0, 0, 1] 80 ""] = (oneGameState, [])
    ∧ heapRead oneGameState.heap 0 = [] := by
  refine ⟨by decide, by decide, by decide, by decide, by decide⟩

/-- C3 (amended): for a known session id and an address A that is not
filtered out and whose key is not yet present, submitting `[A]` twice — or
`[A, A]` once — spawns exactly one probe for A and creates exactly one entry
for A's key, with status Pending; the second submission (and the duplicate
list element) changes nothing: the state after the second call is exactly
the state after the first.  (For filtered addresses both submissions do
nothing at all; see the counterexample.) -/
theorem updateAddrs_duplicate_idempotent (s : CState) (id : Int) (game : CacheItemH)
    (A : GoAddr) (hg : mapLookup s.games id = some game)
    (hskip : shouldSkipAddr A = false)
    (hfresh : mapLookup (heapRead s.heap game.Addrs) (cacheAddrKey A) = none) :
    (doUpdateAddrs s id [A]).2 = [⟨id, A⟩]
    ∧ doUpdateAddrs (doUpdateAddrs s id [A]).1 id [A] = ((doUpdateAddrs s id [A]).1, [])
    ∧ doUpdateAddrs s id [A, A] = doUpdateAddrs s id [A]
    ∧ mapLookup (heapRead (doUpdateAddrs s id [A]).1.heap game.Addrs) (cacheAddrKey A)
        = some ⟨some A, ConnectStatus.pending⟩
    ∧ (heapRead (doUpdateAddrs s id [A]).1.heap game.Addrs).countP
        (fun e => decide (e.1 = cacheAddrKey A)) = 1
    ∧ (doUpdateAddrs s id [A]).1.games = s.games := by
  have hb : ¬shouldSkipAddr A = true := by simp [hskip]
  have e1 : doUpdateAddrs s id [A]
      = ({ s with heap := (heapWrite s.heap game.Addrs (mapInsert (heapRead s.heap game.Addrs) (cacheAddrKey A) ⟨some A, ConnectStatus.pending⟩)) }, [⟨id, A⟩]) := by
    simp [doUpdateAddrs, hg, updateAddrsLoop, hb, hfresh]
  have hread : heapRead (doUpdateAddrs s id [A]).1.heap game.Addrs
      = mapInsert (heapRead s.heap game.Addrs) (cacheAddrKey A) ⟨some A, ConnectStatus.pending⟩ := by
    rw [e1]
    exact heapRead_write_self _ _ _
  have hlk2 : mapLookup (heapRead (doUpdateAddrs s id [A]).1.heap game.Addrs) (cacheAddrKey A)
      = some ⟨some A, ConnectStatus.pending⟩ := by
    rw [hread]
    exact mapLookup_insert_self _ _ _
  have hgames : (doUpdateAddrs s id [A]).1.games = s.games := by
    rw [e1]
  refine ⟨by rw [e1], ?_, ?_, hlk2, ?_, hgames⟩
  · rw [e1]
    simp [doUpdateAddrs, hg, updateAddrsLoop, hb, heapRead_write_self, mapLookup_insert_self]
  · rw [e1]
    simp [doUpdateAddrs, hg, updateAddrsLoop, hb, hfresh, heapRead_write_self,
      mapLookup_insert_self]
  · rw [hread]
    exact mapInsert_countP _ _ _ hfresh

/-- Witness for C3 at a concrete state and address. -/
theorem updateAddrs_duplicate_idempotent_witness :
    mapLookup oneGameState.games 1 = some ⟨sampleGame 1 "a", 0⟩
    ∧ shouldSkipAddr gAddr = false
    ∧ mapLookup (heapRead oneGameState.heap 0) (cacheAddrKey gAddr) = none
    ∧ (doUpdateAddrs oneGameState 1 [gAddr]).2 = [⟨1, gAddr⟩]
    ∧ doUpdateAddrs (doUpdateAddrs oneGameState 1 [gAddr]).1 1 [gAddr]
        = ((doUpdateAddrs oneGameState 1 [gAddr]).1, [])
    ∧ (heapRead (doUpdateAddrs oneGameState 1 [gAddr]).1.heap 0).countP
        (fun e => decide (e.1 = cacheAddrKey gAddr)) = 1 := by
  have h1 : mapLookup oneGameState.games 1 = some ⟨sampleGame 1 "a", 0⟩ := by decide
  have h2 : shouldSkipAddr gAddr = false := by decide
  have h3 : mapLookup (heapRead oneGameState.heap 0) (cacheAddrKey gAddr) = none := by decide
  have r := updateAddrs_duplicate_idempotent oneGameState 1 ⟨sampleGame 1 "a", 0⟩ gAddr h1 h2 h3
  exact ⟨h1, h2, h3, r.1, r.2.1, r.2.2.2.2.1⟩

/-!  ## C8 — probe-result delivery -/

/-- The delete-and-recreate trace: game 1 is created, address `gAddr` is
submitted (spawning a probe), the game is deleted while the probe is in
flight, and the game is re-created with a fresh, empty address table. -/
def resurrectTrace : List CacheReq :=
  [.updateSingle (sampleGame 1 "g"), .updateAddrs 1 [gAddr], .delete 1,
   .updateSingle (sampleGame 1 "g")]

/-- C8 counterexample: the claim's invariant says every address key present
for a session was inserted by an `UpdateAddrs` call for that session, and in
particular that delivery of a probe result after the session was deleted and
re-created introduces no key.  Running `resurrectTrace` from the empty cache
leaves game 1 with the fresh table 1, which is empty — its only
`UpdateAddrs` happened before the deletion and populated the discarded
table 0.  Delivering the in-flight probe result then *inserts* the key
`tcp:1.2.3.4:80` into table 1 (with the zero value's nil address), because
the handler writes `game.Addrs[key]` back unconditionally. -/
theorem checkResult_resurrects_key_cex :
    mapLookup (cacheRun cacheInit resurrectTrace).games 1 = some ⟨sampleGame 1 "g", 1⟩
    ∧ heapRead (cacheRun cacheInit resurrectTrace).heap 1 = []
    ∧ heapRead (cacheStep (cacheRun cacheInit resurrectTrace)
        (.checkResult ⟨1, gAddr, .success⟩)).heap 1
        = [(cacheAddrKey gAddr, ⟨none, ConnectStatus.success⟩)] := by
  refine ⟨by decide, by decide, by decide⟩

/-- C8 (amended): a probe result whose owning session no longer exists is
discarded without changing state (and without notifying); but a probe result
whose session exists writes the status at the result's key unconditionally,
never touching the games map: if the key is present its status is replaced
(address preserved), and if it is absent — as after a delete-and-recreate —
a fresh entry with the zero value's nil address and the result's status is
inserted, so an address key can appear without any `UpdateAddrs` submission
for the session's current incarnation. -/
theorem checkResult_semantics (s : CState) (res : CheckResult) :
    (mapLookup s.games res.id = none → doCheckResult s res = (s, []))
    ∧ ∀ game, mapLookup s.games res.id = some game →
        (doCheckResult s res).1.games = s.games
        ∧ (mapLookup (heapRead s.heap game.Addrs) (cacheAddrKey res.addr) = none →
            mapLookup (heapRead (doCheckResult s res).1.heap game.Addrs)
              (cacheAddrKey res.addr) = some ⟨none, res.status⟩)
        ∧ ∀ e, mapLookup (heapRead s.heap game.Addrs) (cacheAddrKey res.addr) = some e →
            mapLookup (heapRead (doCheckResult s res).1.heap game.Addrs)
              (cacheAddrKey res.addr) = some ⟨e.Addr, res.status⟩ := by
  constructor
  · intro h
    simp [doCheckResult, h]
  · intro game hg
    refine ⟨by simp [doCheckResult, hg], ?_, ?_⟩
    · intro hnone
      simp [doCheckResult, hg, hnone, heapRead_write_self, mapLookup_insert_self]
    · intro e he
      simp [doCheckResult, hg, he, heapRead_write_self, mapLookup_insert_self]

/-- Witness for C8's amended statement: the discard branch at a concrete
state (unknown game 9), and the zero-value insertion branch on the
delete-and-recreate state. -/
theorem checkResult_semantics_witness :
    mapLookup oneGameState.games 9 = none
    ∧ doCheckResult oneGameState ⟨9, gAddr, .success⟩ = (oneGameState, [])
    ∧ mapLookup (cacheRun cacheInit resurrectTrace).games 1 = some ⟨sampleGame 1 "g", 1⟩
    ∧ mapLookup (heapRead (cacheRun cacheInit resurrectTrace).heap 1) (cacheAddrKey gAddr) = none
    ∧ mapLookup (heapRead (doCheckResult (cacheRun cacheInit resurrectTrace) ⟨1, gAddr, .success⟩).1.heap 1)
        (cacheAddrKey gAddr) = some ⟨none, ConnectStatus.success⟩ := by
  have h9 : mapLookup oneGameState.games 9 = none := by decide
  have hg : mapLookup (cacheRun cacheInit resurrectTrace).games 1 = some ⟨sampleGame 1 "g", 1⟩ := by
    decide
  have hn : mapLookup (heapRead (cacheRun cacheInit resurrectTrace).heap 1) (cacheAddrKey gAddr)
      = none := by decide
  refine ⟨h9, (checkResult_semantics oneGameState ⟨9, gAddr, .success⟩).1 h9, hg, hn, ?_⟩
  exact (((checkResult_semantics (cacheRun cacheInit resurrectTrace) ⟨1, gAddr, .success⟩).2
    ⟨sampleGame 1 "g", 1⟩ hg).2.1 hn)

/-!  ## C4 / C10 — address filtering -/

/-- The claim-side filtering condition, stated from the spec's words: the IP
is not a global-unicast address, or lies in 10/8, 172.16/12, 192.168/16 or
169.254/16 (read through `To4`, covering both 4-byte and IPv4-in-IPv6
forms), or is the IPv6 loopback, an IPv6 link-local address (`fe80::/10`),
or an IPv6 unique-local address (`fc00::/7`, first byte 0xfc or 0xfd). -/
def specPrivateOrLocalIP (ip : IPBytes) : Prop :=
  ipIsGlobalUnicast ip = false
  ∨ (∃ p4, ipTo4 ip = some p4 ∧
      (p4.getD 0 0 = 10
       ∨ (p4.getD 0 0 = 172 ∧ 16 ≤ p4.getD 1 0 ∧ p4.getD 1 0 ≤ 31)
       ∨ (p4.getD 0 0 = 192 ∧ p4.getD 1 0 = 168)
       ∨ (p4.getD 0 0 = 169 ∧ p4.getD 1 0 = 254)))
  ∨ ip = ipv6Loopback
  ∨ (ip.length = 16 ∧ ip.getD 0 0 = 254 ∧ ip.getD 1 0 &&& 192 = 128)
  ∨ (ip.length = 16 ∧ (ip.getD 0 0 = 252 ∨ ip.getD 0 0 = 253))

theorem ipTo4_length (ip p4 : IPBytes) (h : ipTo4 ip = some p4) : p4.length = 4 := by
  unfold ipTo4 at h
  split at h
  · cases h
    assumption
  · split at h
    · cases h
      simp [List.length_drop]
      omega
    · cases h

theorem ipTo4_none_of_first_ne (ip : IPBytes) (h16 : ip.length = 16)
    (h0 : ip.getD 0 0 ≠ 0) : ipTo4 ip = none := by
  cases ip with
  | nil => simp at h16
  | cons a t =>
    simp only [List.getD, List.getElem?_cons_zero, Option.getD_some] at h0
    unfold ipTo4
    rw [if_neg (by omega)]
    rw [if_neg ?_]
    rintro ⟨-, htake⟩
    rw [List.take_cons (by omega)] at htake
    rw [v4InV6Prefix] at htake
    exact h0 (List.cons.injEq _ _ _ _ ▸ htake).1

theorem land240_16_31 : ∀ b : Nat, b < 32 → 16 ≤ b → b &&& 240 = 16 := by decide

theorem land254_252 : ∀ b : Nat, b = 252 ∨ b = 253 → b &&& 254 = 252 := by
  rintro b (rfl | rfl) <;> decide

/-- Membership of a block in `privateIPBlocks` lifts a `Contains` proof to
the `any` scan that `shouldSkipAddr` performs. -/
theorem shouldSkipIP_of_contains (ip : IPBytes) (nn mask : IPBytes)
    (hmem : (nn, mask) ∈ privateIPBlocks) (hc : ipNetContains nn mask ip = true) :
    shouldSkipIP ip = true := by
  unfold shouldSkipIP
  split
  · rfl
  · rw [List.any_eq_true]
    exact ⟨(nn, mask), hmem, hc⟩

/-- A 4-byte `To4` image whose first byte(s) pin one of the IPv4 private
blocks satisfies `Contains` for that block. -/
theorem contains_v4_block (ip p4 : IPBytes) (h4 : ipTo4 ip = some p4)
    (nn mask : IPBytes) (hlen : nn.length = 4)
    (hbytes : ∀ i, i < 4 → nn.getD i 0 &&& mask.getD i 0 = p4.getD i 0 &&& mask.getD i 0) :
    ipNetContains nn mask ip = true := by
  unfold ipNetContains
  rw [h4]
  simp only [Option.getD_some, Bool.and_eq_true, decide_eq_true_eq, List.all_eq_true,
    List.mem_range]
  refine ⟨by rw [ipTo4_length ip p4 h4, hlen], ?_⟩
  intro i hi
  rw [hlen] at hi
  exact hbytes i hi

theorem landZero (n : Nat) : n &&& 0 = 0 := by simp

/-- `Contains` for a 16-byte network when the IP has no 4-byte form. -/
theorem contains_v6_block (ip : IPBytes) (ht4 : ipTo4 ip = none) (nn mask : IPBytes)
    (hlen : nn.length = 16) (hiplen : ip.length = 16)
    (hbytes : ∀ i, i < 16 → nn.getD i 0 &&& mask.getD i 0 = ip.getD i 0 &&& mask.getD i 0) :
    ipNetContains nn mask ip = true := by
  unfold ipNetContains
  rw [ht4]
  simp only [Option.getD_none, Bool.and_eq_true, decide_eq_true_eq, List.all_eq_true,
    List.mem_range]
  refine ⟨by rw [hiplen, hlen], ?_⟩
  intro i hi
  rw [hlen] at hi
  exact hbytes i hi

/-- The spec's filtering condition implies the code's skip decision. -/
theorem shouldSkipIP_of_spec (ip : IPBytes) (h : specPrivateOrLocalIP ip) :
    shouldSkipIP ip = true := by
  rcases h with hg | ⟨p4, h4, hcase⟩ | hlb | ⟨h16, hb0, hb1⟩ | ⟨h16, hb0⟩
  · simp [shouldSkipIP, hg]
  · rcases hcase with hb | ⟨hb0, hb1, hb1'⟩ | ⟨hb0, hb1⟩ | ⟨hb0, hb1⟩
    · refine shouldSkipIP_of_contains ip [10, 0, 0, 0] [255, 0, 0, 0] (by simp [privateIPBlocks]) ?_
      refine contains_v4_block ip p4 h4 _ _ rfl ?_
      intro i hi
      interval_cases i
      · rw [hb]; decide
      · exact (landZero _).symm
      · exact (landZero _).symm
      · exact (landZero _).symm
    · refine shouldSkipIP_of_contains ip [172, 16, 0, 0] [255, 240, 0, 0] (by simp [privateIPBlocks]) ?_
      refine contains_v4_block ip p4 h4 _ _ rfl ?_
      intro i hi
      interval_cases i
      · rw [hb0]; decide
      · have h240 := land240_16_31 (p4.getD 1 0) (by omega) hb1
        rw [show ([255, 240, 0, 0] : IPBytes).getD 1 0 = 240 from rfl, h240]
        decide
      · exact (landZero _).symm
      · exact (landZero _).symm
    · refine shouldSkipIP_of_contains ip [192, 168, 0, 0] [255, 255, 0, 0] (by simp [privateIPBlocks]) ?_
      refine contains_v4_block ip p4 h4 _ _ rfl ?_
      intro i hi
      interval_cases i
      · rw [hb0]; decide
      · rw [hb1]; decide
      · exact (landZero _).symm
      · exact (landZero _).symm
    · refine shouldSkipIP_of_contains ip [169, 254, 0, 0] [255, 255, 0, 0] (by simp [privateIPBlocks]) ?_
      refine contains_v4_block ip p4 h4 _ _ rfl ?_
      intro i hi
      interval_cases i
      · rw [hb0]; decide
      · rw [hb1]; decide
      · exact (landZero _).symm
      · exact (landZero _).symm
  · subst hlb
    decide
  · have ht4 : ipTo4 ip = none := ipTo4_none_of_first_ne ip h16 (by rw [hb0]; decide)
    have hll : ipIsLinkLocalUnicast ip = true := by
      unfold ipIsLinkLocalUnicast
      rw [ht4]
      exact decide_eq_true ⟨h16, hb0, hb1⟩
    have hglob : ipIsGlobalUnicast ip = false := by
      unfold ipIsGlobalUnicast
      simp [hll]
    simp [shouldSkipIP, hglob]
  · have ht4 : ipTo4 ip = none := by
      refine ipTo4_none_of_first_ne ip h16 ?_
      rcases hb0 with hb | hb <;> rw [hb] <;> decide
    refine shouldSkipIP_of_contains ip ([252] ++ List.replicate 15 0) ([254] ++ List.replicate 15 0)
      (by simp [privateIPBlocks]) ?_
    refine contains_v6_block ip ht4 _ _ (by simp) h16 ?_
    intro i hi
    interval_cases i
    · have h252 := land254_252 (ip.getD 0 0) hb0
      rw [show ([254] ++ List.replicate 15 0 : IPBytes).getD 0 0 = 254 from rfl, h252]
      decide
    all_goals exact (landZero _).symm

/-- C4: every TCP or UDP address whose IP meets the spec's private/local
condition is filtered: `shouldSkipAddr` returns true for it, `UpdateAddrs`
never spawns a probe for it (every spawned probe carries a non-skipped
address of the submitted list, and no skipped TCP/UDP address is ever a
probe's target), and no address-table entry appears except at the key of a
non-skipped submitted address; a `NetpuncherAddr` is never skipped, whatever
its textual rendezvous address. -/
theorem addr_filtering_private_skipped (s : CState) (id : Int) (addrs : List GoAddr) :
    (∀ ip port zone, specPrivateOrLocalIP ip →
        shouldSkipAddr (.tcp ip port zone) = true ∧ shouldSkipAddr (.udp ip port zone) = true)
    ∧ (∀ n a i, shouldSkipAddr (.netpuncher n a i) = false)
    ∧ (∀ p, p ∈ (doUpdateAddrs s id addrs).2 →
        shouldSkipAddr p.addr = false ∧ p.addr ∈ addrs ∧ p.id = id
        ∧ ∀ ip port zone, specPrivateOrLocalIP ip →
            p.addr ≠ .tcp ip port zone ∧ p.addr ≠ .udp ip port zone)
    ∧ (∀ r k, mapLookup (heapRead (doUpdateAddrs s id addrs).1.heap r) k
          ≠ mapLookup (heapRead s.heap r) k →
        ∃ a ∈ addrs, shouldSkipAddr a = false ∧ cacheAddrKey a = k) := by
  have hskipspec : ∀ ip port zone, specPrivateOrLocalIP ip →
      shouldSkipAddr (GoAddr.tcp ip port zone) = true
      ∧ shouldSkipAddr (GoAddr.udp ip port zone) = true := by
    intro ip port zone h
    exact ⟨shouldSkipIP_of_spec ip h, shouldSkipIP_of_spec ip h⟩
  have hprobes : ∀ p, p ∈ (doUpdateAddrs s id addrs).2 →
      shouldSkipAddr p.addr = false ∧ p.addr ∈ addrs ∧ p.id = id := by
    intro p hp
    rcases hg : mapLookup s.games id with _ | game
    · rw [doUpdateAddrs, hg] at hp
      simp at hp
    · rw [doUpdateAddrs, hg] at hp
      exact updateAddrsLoop_probes id game.Addrs s addrs p hp
  refine ⟨hskipspec, fun n a i => rfl, ?_, ?_⟩
  · intro p hp
    obtain ⟨h1, h2, h3⟩ := hprobes p hp
    refine ⟨h1, h2, h3, ?_⟩
    intro ip port zone hspec
    constructor
    · intro he
      rw [he, (hskipspec ip port zone hspec).1] at h1
      cases h1
    · intro he
      rw [he, (hskipspec ip port zone hspec).2] at h1
      cases h1
  · intro r k hne
    rcases hg : mapLookup s.games id with _ | game
    · rw [doUpdateAddrs, hg] at hne
      exact absurd rfl hne
    · rw [doUpdateAddrs, hg] at hne
      obtain ⟨a, ha, h1, h2, -⟩ := updateAddrsLoop_frame id game.Addrs s addrs r k hne
      exact ⟨a, ha, h1, h2⟩

/-- Witness for C4: the loopback address of the spec's example
`127.0.0.1:80` is skipped (its IP is not global unicast), the 10/8 address
`10.0.0.1` is skipped via the private ranges, a netpuncher target carrying
the same loopback-looking text is not skipped, and submitting the loopback
address to a known game changes nothing and spawns nothing. -/
theorem addr_filtering_private_skipped_witness :
    specPrivateOrLocalIP [127, 0, 0, 1]
    ∧ specPrivateOrLocalIP [10, 0, 0, 1]
    ∧ shouldSkipAddr (GoAddr.tcp [127, 0, 0, 1] 80 "") = true
    ∧ shouldSkipAddr (GoAddr.udp [10, 0, 0, 1] 80 "") = true
    ∧ shouldSkipAddr (GoAddr.netpuncher "netpuncher4" "127.0.0.1:80" 42) = false := by
  have h127 : specPrivateOrLocalIP [127, 0, 0, 1] := Or.inl (by decide)
  have h10 : specPrivateOrLocalIP [10, 0, 0, 1] :=
    Or.inr (Or.inl ⟨[10, 0, 0, 1], by decide, Or.inl (by decide)⟩)
  refine ⟨h127, h10, ?_, ?_, ?_⟩
  · exact ((addr_filtering_private_skipped cacheInit 0 []).1 [127, 0, 0, 1] 80 "" h127).1
  · exact ((addr_filtering_private_skipped cacheInit 0 []).1 [10, 0, 0, 1] 80 "" h10).2
  · exact (addr_filtering_private_skipped cacheInit 0 []).2.1 "netpuncher4" "127.0.0.1:80" 42

/-- C10: an address of any dynamic kind other than the three known ones
(modelled by `GoAddr.other`, which carries the only two observations the
cache makes of an unknown `net.Addr`) is classified as skipped by
`shouldSkipAddr`'s default branch; consequently `UpdateAddrs` never spawns
a probe whose target is such an address, and no address-table entry ever
appears for one — every new entry comes from a non-skipped (hence known-kind)
submitted address. -/
theorem unknown_addr_kind_never_probed (s : CState) (id : Int) (addrs : List GoAddr) :
    (∀ n str, shouldSkipAddr (.other n str) = true)
    ∧ (∀ p, p ∈ (doUpdateAddrs s id addrs).2 → ∀ n str, p.addr ≠ .other n str)
    ∧ (∀ r k, mapLookup (heapRead (doUpdateAddrs s id addrs).1.heap r) k
          ≠ mapLookup (heapRead s.heap r) k →
        ∃ a ∈ addrs, shouldSkipAddr a = false ∧ cacheAddrKey a = k
          ∧ ∀ n str, a ≠ .other n str) := by
  have hprobeskip : ∀ p, p ∈ (doUpdateAddrs s id addrs).2 → shouldSkipAddr p.addr = false := by
    intro p hp
    rcases hg : mapLookup s.games id with _ | game
    · rw [doUpdateAddrs, hg] at hp
      simp at hp
    · rw [doUpdateAddrs, hg] at hp
      exact (updateAddrsLoop_probes id game.Addrs s addrs p hp).1
  refine ⟨fun n str => rfl, ?_, ?_⟩
  · intro p hp n str he
    have h1 := hprobeskip p hp
    rw [he] at h1
    cases h1
  · intro r k hne
    rcases hg : mapLookup s.games id with _ | game
    · rw [doUpdateAddrs, hg] at hne
      exact absurd rfl hne
    · rw [doUpdateAddrs, hg] at hne
      obtain ⟨a, ha, h1, h2, -⟩ := updateAddrsLoop_frame id game.Addrs s addrs r k hne
      refine ⟨a, ha, h1, h2, ?_⟩
      intro n str he
      rw [he] at h1
      cases h1

/-- Witness for C10 at a concrete state: an unknown-kind address is skipped,
and a spawned probe of a concrete `UpdateAddrs` call is not of unknown
kind. -/
theorem unknown_addr_kind_never_probed_witness :
    shouldSkipAddr (GoAddr.other "quic" "1.2.3.4:443") = true
    ∧ (⟨1, gAddr⟩ : CheckMsg) ∈ (doUpdateAddrs oneGameState 1 [gAddr, .other "quic" "1.2.3.4:443"]).2
    ∧ ∀ n str, gAddr ≠ GoAddr.other n str := by
  refine ⟨(unknown_addr_kind_never_probed cacheInit 0 []).1 "quic" "1.2.3.4:443", by decide, ?_⟩
  intro n str
  exact (unknown_addr_kind_never_probed oneGameState 1 [gAddr, .other "quic" "1.2.3.4:443"]).2.1
    ⟨1, gAddr⟩ (by decide) n str

/-!  ## C2 — full-refresh diffing -/

/-- C2 counterexample: the claim says the scenario emits *no* notification
for the unchanged session 1.  The `reqUpdateAll` handler calls
`c.notifyGameUpdate(game.ID)` for every incoming game, changed or not, so
running the scenario concretely (cache holding sessions 1, 2, 3; input
session 1 unchanged and session 3 with a modified title) emits exactly one
change notification for session 1. -/
theorem updateAllGames_notifies_unchanged_cex :
    (((doUpdateAll (doUpdateAll cacheInit
          [sampleGame 1 "a", sampleGame 2 "b", sampleGame 3 "c"]).1
        [sampleGame 1 "a", sampleGame 3 "modified"]).2.filter
        (fun u => decide (u.ID = 1))).length = 1) := by
  decide

/-- C2 (amended): starting from a cache holding exactly sessions 1, 2 and 3,
`UpdateAllGames([session 1 (unchanged), session 3 (modified)])` deletes
session 2 and emits exactly one deletion notification for it, keeps
session 1 present and unchanged (same payload, same address table), updates
session 3 in place (new payload, address table preserved) and emits exactly
one change notification for it — and, unlike the claim, also emits exactly
one change notification for the unchanged session 1, because the handler
notifies once per incoming session whether or not it changed. -/
theorem updateAllGames_full_refresh_diff (hp : CHeap) (i1 i2 i3 : CacheItemH)
    (g1 g3 : LeagueGame) (h1 : g1.ID = 1) (h3 : g3.ID = 3) (hunch : i1.Game = g1) :
    doUpdateAll ⟨[(1, i1), (2, i2), (3, i3)], hp⟩ [g1, g3]
      = (⟨[(1, i1), (3, ⟨g3, i3.Addrs⟩)], hp⟩,
         [⟨1, some ⟨g1, heapRead hp i1.Addrs⟩⟩,
          ⟨3, some ⟨g3, heapRead hp i3.Addrs⟩⟩,
          ⟨2, none⟩])
    ∧ (((doUpdateAll ⟨[(1, i1), (2, i2), (3, i3)], hp⟩ [g1, g3]).2.filter
          (fun u => decide (u.ID = 1))).length = 1) := by
  have heta : (⟨g1, i1.Addrs⟩ : CacheItemH) = i1 := by
    cases i1 with
    | mk a b =>
      simp only [CacheItemH.mk.injEq, and_true]
      exact hunch.symm
  have e : doUpdateAll ⟨[(1, i1), (2, i2), (3, i3)], hp⟩ [g1, g3]
      = (⟨[(1, ⟨g1, i1.Addrs⟩), (3, ⟨g3, i3.Addrs⟩)], hp⟩,
         [⟨1, some ⟨g1, heapRead hp i1.Addrs⟩⟩,
          ⟨3, some ⟨g3, heapRead hp i3.Addrs⟩⟩,
          ⟨2, none⟩]) := by
    simp [doUpdateAll, updateAllLoop, deleteLoop, updateGame, notifyGameUpdate, mapLookup,
      mapInsert, mapDelete, h1, h3, List.filter]
  rw [heta] at e
  rw [e]
  simp

/-- Witness for C2 at the concrete scenario (three games with empty address
tables; session 3's title modified). -/
theorem updateAllGames_full_refresh_diff_witness :
    (sampleGame 1 "a").ID = 1
    ∧ (sampleGame 3 "modified").ID = 3
    ∧ (⟨sampleGame 1 "a", 0⟩ : CacheItemH).Game = sampleGame 1 "a"
    ∧ doUpdateAll ⟨[(1, ⟨sampleGame 1 "a", 0⟩), (2, ⟨sampleGame 2 "b", 1⟩),
          (3, ⟨sampleGame 3 "c", 2⟩)], ⟨[(0, []), (1, []), (2, [])], 3⟩⟩
        [sampleGame 1 "a", sampleGame 3 "modified"]
      = (⟨[(1, ⟨sampleGame 1 "a", 0⟩), (3, ⟨sampleGame 3 "modified", 2⟩)],
          ⟨[(0, []), (1, []), (2, [])], 3⟩⟩,
         [⟨1, some ⟨sampleGame 1 "a", []⟩⟩,
          ⟨3, some ⟨sampleGame 3 "modified", []⟩⟩,
          ⟨2, none⟩]) := by
  refine ⟨rfl, rfl, rfl, ?_⟩
  exact (updateAllGames_full_refresh_diff ⟨[(0, []), (1, []), (2, [])], 3⟩
    ⟨sampleGame 1 "a", 0⟩ ⟨sampleGame 2 "b", 1⟩ ⟨sampleGame 3 "c", 2⟩
    (sampleGame 1 "a") (sampleGame 3 "modified") rfl rfl rfl).1

/-!  ## C7 — snapshot isolation

A snapshot cell is *retired*: already allocated but referenced by no live
game.  Every `run`-loop handler writes only through live games' table
references or freshly allocated cells, so retired cells never change. -/

/-- The table references held by live games. -/
def liveRefs (s : CState) : List Nat := s.games.map (fun p => p.2.Addrs)

/-- Every live game's table reference has been allocated.  This holds in
every reachable cache state (`WFCache_init`, `cacheStep_WF`). -/
def WFCache (s : CState) : Prop := ∀ p ∈ s.games, p.2.Addrs < s.heap.next

/-- An allocated cell no live game references. -/
def retiredRef (s : CState) (r : Nat) : Prop := r < s.heap.next ∧ r ∉ liveRefs s

theorem mapLookup_mem {κ β : Type} [DecidableEq κ] (m : List (κ × β)) (k : κ) (v : β)
    (h : mapLookup m k = some v) : (k, v) ∈ m := by
  induction m with
  | nil => cases h
  | cons p rest ih =>
    by_cases hp : p.1 = k
    · rw [mapLookup, if_pos hp] at h
      cases h
      subst hp
      exact List.mem_cons_self _ _
    · rw [mapLookup, if_neg hp] at h
      exact List.mem_cons_of_mem _ (ih h)

theorem mem_mapInsert {κ β : Type} [DecidableEq κ] (m : List (κ × β)) (k : κ) (v : β) :
    ∀ p ∈ mapInsert m k v, p ∈ m ∨ p = (k, v) := by
  induction m with
  | nil => simp [mapInsert]
  | cons q rest ih =>
    intro p hp
    by_cases hq : q.1 = k
    · rw [mapInsert, if_pos hq] at hp
      rcases List.mem_cons.mp hp with hp | hp
      · right; exact hp
      · left; exact List.mem_cons_of_mem _ hp
    · rw [mapInsert, if_neg hq] at hp
      rcases List.mem_cons.mp hp with hp | hp
      · left; exact hp ▸ List.mem_cons_self _ _
      · rcases ih p hp with h | h
        · left; exact List.mem_cons_of_mem _ h
        · right; exact h

theorem mem_mapDelete {κ β : Type} [DecidableEq κ] (m : List (κ × β)) (k : κ) :
    ∀ p ∈ mapDelete m k, p ∈ m := by
  induction m with
  | nil => simp [mapDelete]
  | cons q rest ih =>
    intro p hp
    by_cases hq : q.1 = k
    · rw [mapDelete, if_pos hq] at hp
      exact List.mem_cons_of_mem _ (ih p hp)
    · rw [mapDelete, if_neg hq] at hp
      rcases List.mem_cons.mp hp with hp | hp
      · exact hp ▸ List.mem_cons_self _ _
      · exact List.mem_cons_of_mem _ (ih p hp)

theorem updateGame_frame (s : CState) (g : LeagueGame) (r : Nat) (h : retiredRef s r) :
    heapRead (updateGame s g).heap r = heapRead s.heap r ∧ retiredRef (updateGame s g) r := by
  obtain ⟨hlt, hlive⟩ := h
  unfold updateGame
  rcases hlk : mapLookup s.games g.ID with _ | g0
  · refine ⟨heapRead_alloc_lt s.heap [] r hlt, Nat.lt_succ_of_lt hlt, ?_⟩
    intro hmem
    simp only [liveRefs, List.mem_map] at hmem
    obtain ⟨p, hp, hpr⟩ := hmem
    rcases mem_mapInsert _ _ _ p hp with hp' | hp'
    · exact hlive (by simp only [liveRefs, List.mem_map]; exact ⟨p, hp', hpr⟩)
    · subst hp'
      simp only at hpr
      exact Nat.lt_irrefl _ (hpr ▸ hlt)
  · refine ⟨rfl, hlt, ?_⟩
    intro hmem
    simp only [liveRefs, List.mem_map] at hmem
    obtain ⟨p, hp, hpr⟩ := hmem
    rcases mem_mapInsert _ _ _ p hp with hp' | hp'
    · exact hlive (by simp only [liveRefs, List.mem_map]; exact ⟨p, hp', hpr⟩)
    · subst hp'
      simp only at hpr
      refine hlive ?_
      simp only [liveRefs, List.mem_map]
      exact ⟨(g.ID, g0), mapLookup_mem _ _ _ hlk, hpr⟩

theorem updateAllLoop_frame (games : List LeagueGame) (acc : CState × List CacheUpdate)
    (r : Nat) (h : retiredRef acc.1 r) :
    heapRead (updateAllLoop acc games).1.heap r = heapRead acc.1.heap r
    ∧ retiredRef (updateAllLoop acc games).1 r := by
  induction games generalizing acc with
  | nil => exact ⟨rfl, h⟩
  | cons g rest ih =>
    obtain ⟨hread, hret⟩ := updateGame_frame acc.1 g r h
    obtain ⟨hread2, hret2⟩ := ih (updateGame acc.1 g, acc.2 ++ [notifyGameUpdate (updateGame acc.1 g) g.ID]) hret
    exact ⟨hread2.trans hread, hret2⟩

theorem deleteLoop_frame (ids : List Int) (acc : CState × List CacheUpdate) :
    (deleteLoop acc ids).1.heap = acc.1.heap
    ∧ ∀ x ∈ liveRefs (deleteLoop acc ids).1, x ∈ liveRefs acc.1 := by
  induction ids generalizing acc with
  | nil => exact ⟨rfl, fun x hx => hx⟩
  | cons id rest ih =>
    obtain ⟨hh, hl⟩ := ih (⟨mapDelete acc.1.games id, acc.1.heap⟩,
      acc.2 ++ [notifyGameUpdate ⟨mapDelete acc.1.games id, acc.1.heap⟩ id])
    refine ⟨hh, ?_⟩
    intro x hx
    have := hl x hx
    simp only [liveRefs, List.mem_map] at this ⊢
    obtain ⟨p, hp, hpr⟩ := this
    exact ⟨p, mem_mapDelete _ _ p hp, hpr⟩

theorem updateAddrsLoop_heapRead_ne (id : Int) (mapRef : Nat) (s : CState)
    (addrs : List GoAddr) (r : Nat) (hr : r ≠ mapRef) :
    heapRead (updateAddrsLoop id mapRef s addrs).1.heap r = heapRead s.heap r := by
  induction addrs generalizing s with
  | nil => rfl
  | cons addr rest ih =>
    by_cases hskip : shouldSkipAddr addr
    · simp only [updateAddrsLoop, hskip, if_true]
      exact ih s
    · rcases hlk : mapLookup (heapRead s.heap mapRef) (cacheAddrKey addr) with _ | e
      · simp only [updateAddrsLoop, hskip, Bool.false_eq_true, if_false, hlk]
        refine (ih _).trans ?_
        exact heapRead_write_ne _ _ _ _ hr
      · simp only [updateAddrsLoop, hskip, Bool.false_eq_true, if_false, hlk]
        exact ih s

theorem copyStateAux_mono (l : List (Int × CacheItemH)) (h : CHeap) :
    h.next ≤ (copyStateAux h l).2.next
    ∧ ∀ r, r < h.next → heapRead (copyStateAux h l).2 r = heapRead h r := by
  induction l generalizing h with
  | nil => exact ⟨Nat.le_refl _, fun r _ => rfl⟩
  | cons p rest ih =>
    obtain ⟨hm, hr⟩ := ih (heapAlloc h (heapRead h p.2.Addrs)).2
    constructor
    · refine Nat.le_trans ?_ hm
      exact Nat.le_succ _
    · intro r hlt
      refine (hr r (Nat.lt_succ_of_lt hlt)).trans ?_
      exact heapRead_alloc_lt _ _ r hlt

theorem copyStateAux_snap (l : List (Int × CacheItemH)) (h : CHeap)
    (hl : ∀ p ∈ l, p.2.Addrs < h.next) :
    ∀ p ∈ (copyStateAux h l).1, ∃ q ∈ l, p.1 = q.1 ∧ p.2.Game = q.2.Game
      ∧ h.next ≤ p.2.Addrs ∧ p.2.Addrs < (copyStateAux h l).2.next
      ∧ heapRead (copyStateAux h l).2 p.2.Addrs = heapRead h q.2.Addrs := by
  induction l generalizing h with
  | nil => simp [copyStateAux]
  | cons q0 rest ih =>
    intro p hp
    obtain ⟨hmono, hpres⟩ := copyStateAux_mono rest (heapAlloc h (heapRead h q0.2.Addrs)).2
    rcases List.mem_cons.mp hp with hp | hp
    · subst hp
      refine ⟨q0, List.mem_cons_self _ _, rfl, rfl, Nat.le_refl _, ?_, ?_⟩
      · simp only [copyStateAux]
        exact Nat.lt_of_lt_of_le (Nat.lt_succ_self _) hmono
      · simp only [copyStateAux]
        refine (hpres h.next (Nat.lt_succ_self _)).trans ?_
        exact heapRead_alloc_self h _
    · have hl' : ∀ q ∈ rest, q.2.Addrs < (heapAlloc h (heapRead h q0.2.Addrs)).2.next := by
        intro q hq
        exact Nat.lt_succ_of_lt (hl q (List.mem_cons_of_mem _ hq))
      obtain ⟨q, hq, h1, h2, h3, h4, h5⟩ := ih _ hl' p hp
      refine ⟨q, List.mem_cons_of_mem _ hq, h1, h2, Nat.le_trans (Nat.le_succ _) h3, h4, ?_⟩
      simp only [copyStateAux]
      refine h5.trans ?_
      exact heapRead_alloc_lt h _ _ (hl q (List.mem_cons_of_mem _ hq))

theorem cacheStep_frame (s : CState) (q : CacheReq) (r : Nat) (h : retiredRef s r) :
    heapRead (cacheStep s q).heap r = heapRead s.heap r ∧ retiredRef (cacheStep s q) r := by
  obtain ⟨hlt, hlive⟩ := h
  cases q with
  | updateAll games =>
    obtain ⟨hread, hret⟩ := updateAllLoop_frame games (s, []) r ⟨hlt, hlive⟩
    obtain ⟨hheap, hsub⟩ := deleteLoop_frame
      ((((updateAllLoop (s, []) games).1.games.filter
        (fun p => !(games.map LeagueGame.ID).contains p.1)).map Prod.fst))
      (updateAllLoop (s, []) games)
    refine ⟨?_, ?_, ?_⟩
    · show heapRead (doUpdateAll s games).1.heap r = heapRead s.heap r
      rw [doUpdateAll]
      rw [hheap]
      exact hread
    · show r < (doUpdateAll s games).1.heap.next
      rw [doUpdateAll, hheap]
      exact hret.1
    · show r ∉ liveRefs (doUpdateAll s games).1
      rw [doUpdateAll]
      intro hmem
      exact hret.2 (hsub r hmem)
  | updateSingle game =>
    exact updateGame_frame s game r ⟨hlt, hlive⟩
  | updateAddrs id addrs =>
    show heapRead (doUpdateAddrs s id addrs).1.heap r = heapRead s.heap r
      ∧ retiredRef (doUpdateAddrs s id addrs).1 r
    rcases hlk : mapLookup s.games id with _ | game
    · rw [doUpdateAddrs, hlk]
      exact ⟨rfl, hlt, hlive⟩
    · rw [doUpdateAddrs, hlk]
      have hmr : game.Addrs ∈ liveRefs s := by
        simp only [liveRefs, List.mem_map]
        exact ⟨(id, game), mapLookup_mem _ _ _ hlk, rfl⟩
      have hr : r ≠ game.Addrs := fun he => hlive (he ▸ hmr)
      obtain ⟨hg, hn⟩ := updateAddrsLoop_games id game.Addrs s addrs
      refine ⟨updateAddrsLoop_heapRead_ne id game.Addrs s addrs r hr, ?_, ?_⟩
      · rw [hn]; exact hlt
      · show r ∉ liveRefs (updateAddrsLoop id game.Addrs s addrs).1
        unfold liveRefs
        rw [hg]
        exact hlive
  | delete id =>
    refine ⟨rfl, hlt, ?_⟩
    show r ∉ liveRefs ⟨mapDelete s.games id, s.heap⟩
    intro hmem
    simp only [liveRefs, List.mem_map] at hmem
    obtain ⟨p, hp, hpr⟩ := hmem
    exact hlive (by simp only [liveRefs, List.mem_map]; exact ⟨p, mem_mapDelete _ _ p hp, hpr⟩)
  | checkResult res =>
    show heapRead (doCheckResult s res).1.heap r = heapRead s.heap r
      ∧ retiredRef (doCheckResult s res).1 r
    rcases hlk : mapLookup s.games res.id with _ | game
    · rw [doCheckResult, hlk]
      exact ⟨rfl, hlt, hlive⟩
    · rw [doCheckResult, hlk]
      have hmr : game.Addrs ∈ liveRefs s := by
        simp only [liveRefs, List.mem_map]
        exact ⟨(res.id, game), mapLookup_mem _ _ _ hlk, rfl⟩
      have hr : r ≠ game.Addrs := fun he => hlive (he ▸ hmr)
      exact ⟨heapRead_write_ne _ _ _ _ hr, hlt, hlive⟩
  | get =>
    obtain ⟨hmono, hpres⟩ := copyStateAux_mono s.games s.heap
    refine ⟨hpres r hlt, Nat.lt_of_lt_of_le hlt hmono, hlive⟩

theorem cacheRun_frame (s : CState) (reqs : List CacheReq) (r : Nat) (h : retiredRef s r) :
    heapRead (cacheRun s reqs).heap r = heapRead s.heap r ∧ retiredRef (cacheRun s reqs) r := by
  induction reqs generalizing s with
  | nil => exact ⟨rfl, h⟩
  | cons q rest ih =>
    obtain ⟨hread, hret⟩ := cacheStep_frame s q r h
    obtain ⟨hread2, hret2⟩ := ih (cacheStep s q) hret
    exact ⟨hread2.trans hread, hret2⟩

theorem WFCache_init : WFCache cacheInit := by
  intro p hp
  cases hp

theorem updateGame_WF (s : CState) (g : LeagueGame) (h : WFCache s) :
    WFCache (updateGame s g) := by
  unfold updateGame
  rcases hlk : mapLookup s.games g.ID with _ | g0
  · intro p hp
    rcases mem_mapInsert _ _ _ p hp with hp' | hp'
    · exact Nat.lt_succ_of_lt (h p hp')
    · subst hp'
      exact Nat.lt_succ_self _
  · intro p hp
    rcases mem_mapInsert _ _ _ p hp with hp' | hp'
    · exact h p hp'
    · subst hp'
      exact h (g.ID, g0) (mapLookup_mem _ _ _ hlk)

theorem cacheStep_WF (s : CState) (q : CacheReq) (h : WFCache s) : WFCache (cacheStep s q) := by
  cases q with
  | updateAll games =>
    have hup : WFCache (updateAllLoop (s, []) games).1 := by
      have : ∀ acc : CState × List CacheUpdate, WFCache acc.1 →
          WFCache (updateAllLoop acc games).1 := by
        induction games with
        | nil => intro acc hacc; exact hacc
        | cons g rest ih =>
          intro acc hacc
          exact ih _ (updateGame_WF acc.1 g hacc)
      exact this (s, []) h
    obtain ⟨hheap, hsub⟩ := deleteLoop_frame
      ((((updateAllLoop (s, []) games).1.games.filter
        (fun p => !(games.map LeagueGame.ID).contains p.1)).map Prod.fst))
      (updateAllLoop (s, []) games)
    intro p hp
    show p.2.Addrs < (doUpdateAll s games).1.heap.next
    rw [doUpdateAll, hheap]
    have hx : p.2.Addrs ∈ liveRefs (doUpdateAll s games).1 := by
      simp only [liveRefs, List.mem_map]
      exact ⟨p, hp, rfl⟩
    rw [doUpdateAll] at hx
    have := hsub _ hx
    simp only [liveRefs, List.mem_map] at this
    obtain ⟨p', hp', hpr⟩ := this
    rw [← hpr]
    exact hup p' hp'
  | updateSingle game => exact updateGame_WF s game h
  | updateAddrs id addrs =>
    show WFCache (doUpdateAddrs s id addrs).1
    rcases hlk : mapLookup s.games id with _ | game
    · rw [doUpdateAddrs, hlk]
      exact h
    · rw [doUpdateAddrs, hlk]
      obtain ⟨hg, hn⟩ := updateAddrsLoop_games id game.Addrs s addrs
      intro p hp
      rw [hn]
      exact h p (hg ▸ hp)
  | delete id =>
    intro p hp
    exact h p (mem_mapDelete _ _ p hp)
  | checkResult res =>
    show WFCache (doCheckResult s res).1
    rcases hlk : mapLookup s.games res.id with _ | game
    · rw [doCheckResult, hlk]
      exact h
    · rw [doCheckResult, hlk]
      intro p hp
      exact h p hp
  | get =>
    intro p hp
    obtain ⟨hmono, -⟩ := copyStateAux_mono s.games s.heap
    exact Nat.lt_of_lt_of_le (h p hp) hmono

theorem cacheRun_WF (s : CState) (reqs : List CacheReq) (h : WFCache s) :
    WFCache (cacheRun s reqs) := by
  induction reqs generalizing s with
  | nil => exact h
  | cons q rest ih => exact ih (cacheStep s q) (cacheStep_WF s q h)

/-- C7: `Get` returns a deep, independent copy.  For any cache state whose
live table references are all allocated (true of every reachable state,
by `WFCache_init` and `cacheStep_WF`), every snapshot item corresponds to a
live game with the same id and payload, its table content equals that game's
table content at snapshot time — and after *any* subsequent sequence of
requests against the live cache (`UpdateAddrs`, updates, deletions, probe
results, further `Get`s), the snapshot item's table is unchanged: the
snapshot shares no mutable structure with the live cache. -/
theorem get_snapshot_isolation (s : CState) (hwf : WFCache s) :
    ∀ p ∈ (doGet s).1,
      (∃ q ∈ s.games, p.1 = q.1 ∧ p.2.Game = q.2.Game
        ∧ heapRead (doGet s).2.heap p.2.Addrs = heapRead s.heap q.2.Addrs)
      ∧ ∀ reqs : List CacheReq,
          heapRead (cacheRun (doGet s).2 reqs).heap p.2.Addrs
            = heapRead (doGet s).2.heap p.2.Addrs := by
  intro p hp
  obtain ⟨q, hq, h1, h2, h3, h4, h5⟩ := copyStateAux_snap s.games s.heap hwf p hp
  have hret : retiredRef (doGet s).2 p.2.Addrs := by
    refine ⟨h4, ?_⟩
    intro hmem
    simp only [doGet, liveRefs, List.mem_map] at hmem
    obtain ⟨q', hq', hqr⟩ := hmem
    have hlt := hwf q' hq'
    rw [hqr] at hlt
    omega
  exact ⟨⟨q, hq, h1, h2, h5⟩, fun reqs => (cacheRun_frame (doGet s).2 reqs p.2.Addrs hret).1⟩

/-- The cache after game 1 was created and `gAddr` probed: table 0 is live,
the store's next cell is 1. -/
def probedState : CState := (doUpdateAddrs oneGameState 1 [gAddr]).1

/-- Witness for C7: snapshotting `probedState` and then submitting a new
address to the live cache leaves the snapshot's table (cell 1) unchanged. -/
theorem get_snapshot_isolation_witness :
    WFCache probedState
    ∧ (1, (⟨sampleGame 1 "a", 1⟩ : CacheItemH)) ∈ (doGet probedState).1
    ∧ heapRead (cacheRun (doGet probedState).2
        [.updateAddrs 1 [.udp [5, 6, 7, 8] 90 ""]]).heap 1
        = heapRead (doGet probedState).2.heap 1 := by
  have hwf : WFCache probedState := by
    intro p hp
    simp only [probedState] at hp
    fin_cases hp
    decide
  have hmem : (1, (⟨sampleGame 1 "a", 1⟩ : CacheItemH)) ∈ (doGet probedState).1 := by decide
  refine ⟨hwf, hmem, ?_⟩
  exact (get_snapshot_isolation probedState hwf (1, ⟨sampleGame 1 "a", 1⟩) hmem).2
    [.updateAddrs 1 [.udp [5, 6, 7, 8] 90 ""]]
